import Mathlib

/-!
Shallow embedding of the sensitive-API correlation pipeline implemented in
`src/sesitive APIs/sensitiveAPI_to_LLM.py`.

Python strings are modelled as `List Char` (`Str`), Python dicts as
insertion-ordered association lists with overwrite-on-collision semantics,
and fallible operations (Python exceptions) as `Except PyErr`.  The two
library collaborators that the script calls with fixed arguments are kept
abstract, each as a function parameter:

* `search` models `re.search(r'<(.+?):\s.*?\s(\w+)\(.*\)>', line)` followed
  by `.group(2)` — it returns the extracted method-name token, or `none`
  when the line does not match the pattern;
* `jsonLoads` models `json.loads` — it returns the parsed JSON value, or
  `none` when parsing raises.

Python's `str.lower` is modelled on the ASCII fragment by `Char.toLower`.
-/

abbrev Str := List Char

namespace APKScan

/-- Characters removed by Python's `str.strip()` with no argument
(ASCII whitespace). -/
def isPyWhitespace (c : Char) : Bool :=
  c = ' ' || c = '\t' || c = '\n' || c = '\r' || c = '\x0b' || c = '\x0c'

/-- Model of Python `str.strip()`: drop leading and trailing whitespace. -/
def pyStrip (s : Str) : Str :=
  ((s.dropWhile isPyWhitespace).reverse.dropWhile isPyWhitespace).reverse

/-- Model of Python `str.lower()` (ASCII fragment). -/
def lowerStr (s : Str) : Str :=
  s.map Char.toLower

/-- Truthiness of an optional Python string: `None` and `""` are falsy. -/
def pyTruthyStr (r : Option Str) : Bool :=
  match r with
  | none => false
  | some s => !s.isEmpty

/-- The classification tag passed to `parse_susi_methods_only`
(`"source"` or `"sink"`). -/
inductive SusiKind where
  | source
  | sink
deriving DecidableEq, Repr

/-- Python-dict single-key write `d[k] = v`: overwrite in place when the key
is present, append otherwise (insertion order preserved). -/
def dictInsert (d : List (Str × α)) (k : Str) (v : α) : List (Str × α) :=
  if d.any (fun kv => kv.1 == k) then
    d.map (fun kv => if kv.1 == k then (k, v) else kv)
  else
    d ++ [(k, v)]

/-- Python `d.update(e)`: write every entry of `e` into `d` in order. -/
def dictUpdate (d e : List (Str × α)) : List (Str × α) :=
  e.foldl (fun acc kv => dictInsert acc kv.1 kv.2) d

/-- Python dict lookup `d.get(k)` on the association-list model. -/
def dictLookup (d : List (Str × α)) (k : Str) : Option α :=
  (d.find? (fun kv => kv.1 == k)).map (fun kv => kv.2)

/-- Key-membership test `k in d` on the association-list model. -/
def dictHasKey (d : List (Str × α)) (k : Str) : Bool :=
  d.any (fun kv => kv.1 == k)

/-- Model of `line.startswith("<")`. -/
def startsWithLt (s : Str) : Bool :=
  match s with
  | [] => false
  | c :: _ => c = '<'

/-- Per-line body of the loop in `parse_susi_methods_only` (lines 40–47):
strip the line; when it starts with `<`, contains `>` and the regex
(abstracted as `search`) matches, lower-case the captured method name and
admit it into the dict when its length exceeds 2. -/
def parseSusiStep (search : Str → Option Str) (typ : SusiKind)
    (methods : List (Str × SusiKind)) (rawLine : Str) : List (Str × SusiKind) :=
  if startsWithLt (pyStrip rawLine) && (pyStrip rawLine).any (fun c => c = '>') then
    match search (pyStrip rawLine) with
    | some captured =>
      if (lowerStr captured).length > 2 then
        dictInsert methods (lowerStr captured) typ
      else methods
    | none => methods
  else methods

/-- Embedding of `parse_susi_methods_only` (lines 33–48): fold the per-line
body over the file's lines, starting from the empty dict.  The
file-existence check is outside the embedding: the file's lines are the
input. -/
def parse_susi_methods_only (search : Str → Option Str) (fileLines : List Str)
    (typ : SusiKind) : List (Str × SusiKind) :=
  fileLines.foldl (parseSusiStep search typ) []

/-- Embedding of `main` lines 196–198: start from the empty dict, update
with the parsed source taxonomy, then update with the parsed sink
taxonomy. -/
def buildCatalog (search : Str → Option Str) (srcLines snkLines : List Str) :
    List (Str × SusiKind) :=
  dictUpdate (dictUpdate [] (parse_susi_methods_only search srcLines .source))
    (parse_susi_methods_only search snkLines .sink)

/-- Embedding of `load_mobsf_api_sections` (lines 50–58): the report's
`android_api` section is a mapping category → files; emit one
`(category.lower(), filepath.lower())` pair per listed file. -/
def load_mobsf_api_sections (android_api : List (Str × List Str)) :
    List (Str × Str) :=
  android_api.flatMap (fun cd => cd.2.map (fun fp => (lowerStr cd.1, lowerStr fp)))

/-- Python's substring containment test `needle in hay` on strings. -/
def pyInStr (needle hay : Str) : Bool :=
  decide (needle <:+: hay)

/-- Embedding of `fuzzy_match` (lines 60–66): for every `(category, path)`
entry and every catalog item `(method, typ)`, emit `(typ, category, path)`
exactly when `method in category or method in path` (Python substring
test). -/
def fuzzy_match (mobsf_entries : List (Str × Str))
    (susi_methods : List (Str × SusiKind)) : List (SusiKind × Str × Str) :=
  mobsf_entries.flatMap (fun cp =>
    susi_methods.filterMap (fun mt =>
      if pyInStr mt.1 cp.1 || pyInStr mt.1 cp.2 then
        some (mt.2, cp.1, cp.2)
      else none))

/-- Case-insensitive substring test: the spec's matching relation, lowering
both operands before the substring test. -/
def ciSubstring (needle hay : Str) : Bool :=
  pyInStr (lowerStr needle) (lowerStr hay)

/-- Consecutive groups of at most `c` elements:
`[l[i:i+c] for i in range(0, len(l), c)]` for a positive step `c`. -/
def chunksOf (c : Nat) (l : List α) : List (List α) :=
  if h : c = 0 ∨ l.isEmpty then []
  else
    have : l.length - c < l.length := by
      cases l with
      | nil => simp at h
      | cons a t =>
        have hc : c ≠ 0 := by
          intro hc0
          exact h (Or.inl hc0)
        simp only [List.length_cons]
        omega
    l.take c :: chunksOf c (l.drop c)
termination_by l.length
decreasing_by simpa using this

/-- The non-blank stripped line list built on line 83:
`[line.strip() for line in f if line.strip()]`. -/
def nonBlankLines (raw : List Str) : List Str :=
  (raw.map pyStrip).filter (fun l => !l.isEmpty)

/-- Embedding of `load_and_chunk_files` (lines 81–84): strip each raw line,
keep the non-blank ones, slice them into groups of `chunk_size`, and join
each group with a newline. -/
def load_and_chunk_files (raw : List Str) (chunk_size : Nat) : List Str :=
  (chunksOf chunk_size (nonBlankLines raw)).map (fun g => List.intercalate ['\n'] g)

/-- Loop body of `analyze_with_llm_with_retry` (lines 101–109), instrumented
with the accumulated `time.sleep` seconds.  `call i` is the outcome of
`call_groq_llm(prompt)` on attempt `i` (`none` models the `except` branch
returning `None`).  The loop returns the result as soon as it is truthy;
otherwise it sleeps `2 ** attempt` seconds and retries, returning `None`
after the last attempt. -/
def retryFrom (call : Nat → Option Str) (attempt remaining elapsed : Nat) :
    Option Str × Nat :=
  match remaining with
  | 0 => (none, elapsed)
  | r + 1 =>
    let result := call attempt
    if pyTruthyStr result then (result, elapsed)
    else retryFrom call (attempt + 1) r (elapsed + 2 ^ attempt)

/-- Embedding of `analyze_with_llm_with_retry` (lines 101–109); the call
sites use the default `retries=3`.  The second component is the total
number of seconds slept. -/
def analyze_with_llm_with_retry (call : Nat → Option Str) (retries : Nat) :
    Option Str × Nat :=
  retryFrom call 0 retries 0

/-- JSON values as produced by `json.loads` (numbers restricted to the
integers, which suffices for every claim under study). -/
inductive Json where
  | null
  | bool (b : Bool)
  | num (n : Int)
  | str (s : Str)
  | arr (elems : List Json)
  | obj (fields : List (Str × Json))

/-- Python truthiness of a JSON value: `None`, `False`, `0`, `""`, `[]` and
an empty dict are falsy. -/
def Json.truthy : Json → Bool
  | .null => false
  | .bool b => b
  | .num n => n ≠ 0
  | .str s => !s.isEmpty
  | .arr elems => !elems.isEmpty
  | .obj fields => !fields.isEmpty

/-- Python exceptions that the aggregator's dynamic lookups can raise. -/
inductive PyErr where
  | attributeError
  | keyError
  | indexError
  | typeError
deriving DecidableEq, Repr

/-- First-match association lookup among a JSON object's fields. -/
def jsonFieldLookup (fields : List (Str × Json)) (k : Str) : Option Json :=
  (fields.find? (fun kv => kv.1 == k)).map (fun kv => kv.2)

/-- Python `r.get(k)`: `None` default on a dict, `AttributeError` on any
non-dict value. -/
def pyGet (j : Json) (k : Str) : Except PyErr (Option Json) :=
  match j with
  | .obj fields => .ok (jsonFieldLookup fields k)
  | _ => .error .attributeError

/-- Python subscript `r[k]` with a string key: value or `KeyError` on a
dict, `TypeError` otherwise. -/
def pySubscript (j : Json) (k : Str) : Except PyErr Json :=
  match j with
  | .obj fields =>
    match jsonFieldLookup fields k with
    | some v => .ok v
    | none => .error .keyError
  | _ => .error .typeError

/-- Python subscript `r[0]`: first element or `IndexError` on a list, first
character or `IndexError` on a string, `KeyError` on a dict (its JSON keys
are strings, never the integer `0`), `TypeError` otherwise. -/
def pyIndexZero (j : Json) : Except PyErr Json :=
  match j with
  | .arr elems =>
    match elems with
    | [] => .error .indexError
    | e :: _ => .ok e
  | .str s =>
    match s with
    | [] => .error .indexError
    | c :: _ => .ok (.str [c])
  | .obj _ => .error .keyError
  | _ => .error .typeError

/-- Python `==` between a JSON value and a string literal. -/
def jsonEqStr (j : Json) (s : Str) : Bool :=
  match j with
  | .str t => t == s
  | _ => false

/-- Python `==` between an optional JSON value (a `dict.get` result) and a
string literal; `None == s` is `False`. -/
def optJsonEqStr (o : Option Json) (s : Str) : Bool :=
  match o with
  | none => false
  | some j => jsonEqStr j s

/-- Embedding of `safe_json_load` (lines 26–31): `None` for a falsy input,
otherwise `json.loads` with the exception caught to `None` (already folded
into the abstract `jsonLoads`). -/
def safe_json_load (jsonLoads : Str → Option Json) (s : Option Str) :
    Option Json :=
  match s with
  | none => none
  | some t => if t.isEmpty then none else jsonLoads t

/-- The value `parsed_results` holds after lines 147–148: parse each truthy
raw response, then keep only the truthy parse results. -/
def parsedResults (jsonLoads : Str → Option Json) (results : List Str) :
    List Json :=
  ((results.filter (fun r => !r.isEmpty)).map
      (fun r => safe_json_load jsonLoads (some r))).filterMap
    (fun o =>
      match o with
      | some j => if j.truthy then some j else none
      | none => none)

/-- The dict key `"risk_level"`. -/
def riskLevelKey : Str := "risk_level".toList

/-- The dict key `"key_indicators"`. -/
def keyIndicatorsKey : Str := "key_indicators".toList

/-- The string `"high"`. -/
def highStr : Str := "high".toList

/-- The string `"medium"`. -/
def mediumStr : Str := "medium".toList

/-- The generator `sum(1 for r in parsed_results if r.get("risk_level") == level)`
evaluated left to right; the first non-dict element raises. -/
def countRiskLevel (level : Str) : List Json → Except PyErr Nat
  | [] => .ok 0
  | r :: rest =>
    match pyGet r riskLevelKey with
    | .error e => .error e
    | .ok v =>
      match countRiskLevel level rest with
      | .error e => .error e
      | .ok n => .ok ((if optJsonEqStr v level then 1 else 0) + n)

/-- The generator on lines 161–163:
`r['key_indicators'][0] for r in parsed_results if r["risk_level"] in ["high", "medium"]`,
evaluated left to right.  For each element the membership condition is
evaluated first (`r["risk_level"]` may raise `KeyError`), then the selected
elements evaluate `r['key_indicators'][0]` (which may raise `KeyError` or
`IndexError`). -/
def topIndicatorFirsts : List Json → Except PyErr (List Json)
  | [] => .ok []
  | r :: rest =>
    match pySubscript r riskLevelKey with
    | .error e => .error e
    | .ok lvl =>
      if jsonEqStr lvl highStr || jsonEqStr lvl mediumStr then
        match pySubscript r keyIndicatorsKey with
        | .error e => .error e
        | .ok ki =>
          match pyIndexZero ki with
          | .error e => .error e
          | .ok first =>
            match topIndicatorFirsts rest with
            | .error e => .error e
            | .ok tail => .ok (first :: tail)
      else topIndicatorFirsts rest

/-- Python `"\n".join(items)`: every item must be a string
(`TypeError` otherwise); the string items are joined with newlines. -/
def joinWithNewlines (items : List Json) : Except PyErr Str :=
  match items with
  | [] => .ok []
  | j :: rest =>
    match j with
    | .str s =>
      match joinWithNewlines rest with
      | .error e => .error e
      | .ok tail =>
        match rest with
        | [] => .ok s
        | _ :: _ => .ok (s ++ '\n' :: tail)
    | _ => .error .typeError

/-- The `statistics` block of the final report. -/
structure Stats where
  total_chunks : Nat
  high_risk : Nat
  medium_risk : Nat
deriving DecidableEq, Repr

/-- The data interpolated into the executive-summary prompt f-string
(lines 165–182): the dumped statistics and the joined top-indicators
digest.  The surrounding fixed prompt text carries no run data and is
elided. -/
structure SummaryPrompt where
  stats : Stats
  top_indicators : Str

/-- The final report dict assembled on lines 150–158 and 185–186. -/
structure FinalReport where
  statistics : Stats
  detailed_findings : List Json
  executive_summary : Option Str

/-- Embedding of `generate_final_report` (lines 146–190).  `jsonLoads`
abstracts `json.loads`; `llm p i` is the outcome of `call_groq_llm` on
attempt `i` for the summary prompt `p`, fed through the retry loop with
its default of 3 attempts.  An uncaught Python exception surfaces as
`.error`. -/
def generate_final_report (jsonLoads : Str → Option Json)
    (llm : SummaryPrompt → Nat → Option Str) (results : List Str) :
    Except PyErr FinalReport :=
  let parsed := parsedResults jsonLoads results
  match countRiskLevel highStr parsed with
  | .error e => .error e
  | .ok high =>
    match countRiskLevel mediumStr parsed with
    | .error e => .error e
    | .ok medium =>
      let stats : Stats := ⟨results.length, high, medium⟩
      if parsed.isEmpty then
        .ok ⟨stats, parsed, none⟩
      else
        match topIndicatorFirsts parsed with
        | .error e => .error e
        | .ok firsts =>
          match joinWithNewlines firsts with
          | .error e => .error e
          | .ok top =>
            .ok ⟨stats, parsed,
              (analyze_with_llm_with_retry (llm ⟨stats, top⟩) 3).1⟩

/-!
Spec-side definitions, for comparison with the embedded code.
-/

/-- The spec's notion of a file's non-blank line sequence: the raw lines
whose stripped form is nonempty, unaltered. -/
def fileNonBlankLines (raw : List Str) : List Str :=
  raw.filter (fun r => !(pyStrip r).isEmpty)

/-- Total field access `r.get(k)` restricted to dict values (`none` on a
non-dict); the shape every successfully parsed Verdict is supposed to
have. -/
def jsonGetOpt (j : Json) (k : Str) : Option Json :=
  match j with
  | .obj fields => jsonFieldLookup fields k
  | _ => none

/-- The spec's statistic: the number of parsed Verdicts whose `risk_level`
field equals `level`. -/
def specRiskLevelCount (level : Str) (parsed : List Json) : Nat :=
  parsed.countP (fun r => optJsonEqStr (jsonGetOpt r riskLevelKey) level)

/-!
Concrete inputs used by witnesses and counterexamples.
-/

/-- A call oracle that fails (returns `None`) on attempts 0 and 1 and
succeeds from attempt 2 on. -/
def callFailTwice : Nat → Option Str :=
  fun i => if i < 2 then none else some ('o' :: 'k' :: [])

/-- A call oracle whose every attempt succeeds at the transport level but
returns the empty string. -/
def callAlwaysEmpty : Nat → Option Str :=
  fun _ => some []

/-- A taxonomy line in SuSi format. -/
def demoSusiLine : Str :=
  "<a.B: void getLoc(int)>".toList

/-- Test double for the abstracted `re.search` capture: on `demoSusiLine`
the pattern captures the method-name token `getLoc`; every other line is
reported as a non-match. -/
def searchDemo : Str → Option Str :=
  fun l => if l == demoSusiLine then some ("getLoc".toList) else none

/-- A line that does not have the SuSi shape (no angle brackets). -/
def demoBadLine : Str :=
  "junk line".toList

/-- A one-method catalog, as `main` would build it from a sink taxonomy. -/
def susiDemo : List (Str × SusiKind) :=
  [("loc".toList, SusiKind.sink)]

/-- A one-category scan-report section with one evidence file. -/
def apiDemo : List (Str × List Str) :=
  [("Geolocation".toList, ["a/B.java".toList])]

/-- Raw lines of a small intermediate artifact: four non-blank lines and
one blank line. -/
def rawLinesDemo : List Str :=
  ["ab".toList, "".toList, "cd".toList, "ef".toList, "gh".toList]

/-- A `json.loads` double for inputs on which parsing fails. -/
def jsonLoadsNone : Str → Option Json :=
  fun _ => none

/-- A summary-model double whose every call fails. -/
def llmNone : SummaryPrompt → Nat → Option Str :=
  fun _ _ => none

/-- A raw model response that is not valid JSON. -/
def junkRaw : Str :=
  "not json".toList

/-- Raw text of a well-formed high-risk verdict. -/
def rawHigh : Str :=
  "\x7b\"risk_level\": \"high\", \"key_indicators\": [\"ind\"]\x7d".toList

/-- The parsed form of `rawHigh`. -/
def objHigh : Json :=
  .obj [(riskLevelKey, .str highStr), (keyIndicatorsKey, .arr [.str ("ind".toList)])]

/-- A `json.loads` double that parses `rawHigh` to `objHigh` and fails on
everything else. -/
def jsonLoadsHigh : Str → Option Json :=
  fun s => if s == rawHigh then some objHigh else none

/-- Raw text of a verdict that is a valid JSON object with
`risk_level: "high"` but no `key_indicators` key. -/
def rawMissingKi : Str :=
  "\x7b\"risk_level\": \"high\"\x7d".toList

/-- The parsed form of `rawMissingKi`. -/
def objMissingKi : Json :=
  .obj [(riskLevelKey, .str highStr)]

/-- A `json.loads` double that parses `rawMissingKi` to `objMissingKi` and
fails on everything else. -/
def jsonLoadsMissingKi : Str → Option Json :=
  fun s => if s == rawMissingKi then some objMissingKi else none

/-!
Theorems.  Retry client (claims C3 and C9).
-/

theorem retryFrom_all_fail (call : Nat → Option Str) :
    ∀ (n a e : Nat),
      (∀ i, a ≤ i → i < a + n → pyTruthyStr (call i) = false) →
      retryFrom call a n e =
        (none, e + Finset.sum (Finset.Ico a (a + n)) (fun i => 2 ^ i)) := by
  intro n
  induction n with
  | zero =>
    intro a e _
    simp [retryFrom]
  | succ m ih =>
    intro a e h
    have ha : pyTruthyStr (call a) = false := h a le_rfl (by omega)
    have step : retryFrom call a (m + 1) e =
        retryFrom call (a + 1) m (e + 2 ^ a) := by
      simp [retryFrom, ha]
    rw [step, ih (a + 1) (e + 2 ^ a) (fun i h1 h2 => h i (by omega) (by omega))]
    have hsplit : Finset.sum (Finset.Ico a (a + (m + 1))) (fun i => 2 ^ i) =
        2 ^ a + Finset.sum (Finset.Ico (a + 1) (a + (m + 1))) (fun i => 2 ^ i) :=
      Finset.sum_eq_sum_Ico_succ_bot (by omega) (fun i => 2 ^ i)
    have harr : a + 1 + m = a + (m + 1) := by omega
    rw [harr, hsplit]
    simp only [Prod.mk.injEq, true_and]
    omega

theorem retryFrom_first_success (call : Nat → Option Str) (k : Nat)
    (hsucc : pyTruthyStr (call k) = true) :
    ∀ (n a e : Nat),
      (∀ i, a ≤ i → i < k → pyTruthyStr (call i) = false) →
      a ≤ k → k < a + n →
      retryFrom call a n e =
        (call k, e + Finset.sum (Finset.Ico a k) (fun i => 2 ^ i)) := by
  intro n
  induction n with
  | zero =>
    intro a e _ hak hlt
    omega
  | succ m ih =>
    intro a e h hak hlt
    rcases Nat.eq_or_lt_of_le hak with heq | hlt2
    · subst heq
      simp [retryFrom, hsucc]
    · have ha : pyTruthyStr (call a) = false := h a le_rfl hlt2
      have step : retryFrom call a (m + 1) e =
          retryFrom call (a + 1) m (e + 2 ^ a) := by
        simp [retryFrom, ha]
      rw [step, ih (a + 1) (e + 2 ^ a) (fun i h1 h2 => h i (by omega) h2)
        (by omega) (by omega)]
      have hsplit : Finset.sum (Finset.Ico a k) (fun i => 2 ^ i) =
          2 ^ a + Finset.sum (Finset.Ico (a + 1) k) (fun i => 2 ^ i) :=
        Finset.sum_eq_sum_Ico_succ_bot (by omega) (fun i => 2 ^ i)
      rw [hsplit]
      simp only [Prod.mk.injEq, true_and]
      omega

/-- Claim C3: when the remote call fails exactly `k` times and then
succeeds, the bounded-retry client returns the successful result exactly
when `k < retries`; in that case it has slept at least `Σ 2^i` seconds for
`i ∈ [0, k)` (one backoff of `2^i` seconds after each failed attempt `i`);
when `retries ≤ k` the client yields no result. -/
theorem retry_success_iff_k_lt_retries (call : Nat → Option Str) (retries k : Nat)
    (hfail : ∀ i, i < k → pyTruthyStr (call i) = false)
    (hsucc : pyTruthyStr (call k) = true) :
    (k < retries →
      (analyze_with_llm_with_retry call retries).1 = call k ∧
      Finset.sum (Finset.range k) (fun i => 2 ^ i) ≤
        (analyze_with_llm_with_retry call retries).2) ∧
    (retries ≤ k →
      (analyze_with_llm_with_retry call retries).1 = none) := by
  constructor
  · intro hk
    have h := retryFrom_first_success call k hsucc retries 0 0
      (fun i _ h2 => hfail i h2) (Nat.zero_le k) (by omega)
    rw [analyze_with_llm_with_retry, h]
    rw [Finset.range_eq_Ico]
    simp
  · intro hk
    have h := retryFrom_all_fail call retries 0 0
      (fun i _ h2 => hfail i (by omega))
    rw [analyze_with_llm_with_retry, h]

/-- Witness for C3: a call that fails on attempts 0 and 1 and succeeds on
attempt 2, with the default 3 attempts, returns the attempt-2 result after
sleeping at least `2^0 + 2^1 = 3` seconds. -/
theorem retry_success_iff_k_lt_retries_witness :
    (analyze_with_llm_with_retry callFailTwice 3).1 = callFailTwice 2 ∧
    Finset.sum (Finset.range 2) (fun i => 2 ^ i) ≤
      (analyze_with_llm_with_retry callFailTwice 3).2 :=
  (retry_success_iff_k_lt_retries callFailTwice 3 2
    (by decide) (by decide)).1 (by omega)

/-- Claim C9: a call that succeeds at the transport level but returns the
empty string on every attempt is handled exactly like a failing call: the
client backs off after every attempt, returns no result, and behaves
identically to a call that raises every time. -/
theorem retry_drops_empty_string_responses (call : Nat → Option Str) (retries : Nat)
    (h : ∀ i, i < retries → call i = some []) :
    analyze_with_llm_with_retry call retries =
      analyze_with_llm_with_retry (fun _ => none) retries ∧
    (analyze_with_llm_with_retry call retries).1 = none ∧
    (analyze_with_llm_with_retry call retries).2 =
      Finset.sum (Finset.range retries) (fun i => 2 ^ i) := by
  have h1 := retryFrom_all_fail call retries 0 0
    (fun i _ h2 => by rw [h i (by omega)]; rfl)
  have h2 := retryFrom_all_fail (fun _ => none) retries 0 0
    (fun i _ _ => rfl)
  rw [analyze_with_llm_with_retry, analyze_with_llm_with_retry, h1, h2]
  rw [Finset.range_eq_Ico]
  simp

/-- Witness for C9: with every attempt returning the empty string and the
default 3 attempts, the unit is dropped after the full `1 + 2 + 4` seconds
of backoff. -/
theorem retry_drops_empty_string_responses_witness :
    analyze_with_llm_with_retry callAlwaysEmpty 3 =
      analyze_with_llm_with_retry (fun _ => none) 3 ∧
    (analyze_with_llm_with_retry callAlwaysEmpty 3).1 = none ∧
    (analyze_with_llm_with_retry callAlwaysEmpty 3).2 =
      Finset.sum (Finset.range 3) (fun i => 2 ^ i) :=
  retry_drops_empty_string_responses callAlwaysEmpty 3 (by decide)

/-!
Chunking engine (claim C2).
-/

theorem chunksOf_nil {α : Type} (c : Nat) : chunksOf c ([] : List α) = [] := by
  rw [chunksOf]
  simp

theorem chunksOf_cons {α : Type} (c : Nat) (hc : 0 < c) (a : α) (t : List α) :
    chunksOf c (a :: t) = (a :: t).take c :: chunksOf c ((a :: t).drop c) := by
  rw [chunksOf]
  have h : ¬(c = 0 ∨ (a :: t).isEmpty = true) := by
    simp
    omega
  simp only [dif_neg h]

theorem chunksOf_length_aux {α : Type} (c : Nat) (hc : 0 < c) :
    ∀ (n : Nat) (l : List α), l.length ≤ n →
      (chunksOf c l).length = (l.length + c - 1) / c := by
  intro n
  induction n with
  | zero =>
    intro l hl
    have h0 : l = [] := List.eq_nil_of_length_eq_zero (Nat.le_zero.mp hl)
    subst h0
    rw [chunksOf_nil]
    simp
    rw [Nat.div_eq_of_lt (by omega)]
  | succ m ih =>
    intro l hl
    cases l with
    | nil =>
      rw [chunksOf_nil]
      simp
      rw [Nat.div_eq_of_lt (by omega)]
    | cons a t =>
      rw [chunksOf_cons c hc a t]
      have hdrop : ((a :: t).drop c).length = t.length + 1 - c := by
        simp
      have hlen : ((a :: t).drop c).length ≤ m := by
        have hl' : t.length + 1 ≤ m + 1 := by simpa using hl
        omega
      simp only [List.length_cons]
      rw [ih ((a :: t).drop c) hlen, hdrop]
      rcases Nat.lt_or_ge (t.length + 1) c with hsmall | hbig
      · have h1 : t.length + 1 - c = 0 := by omega
        rw [h1]
        have h2 : (0 + c - 1) / c = 0 := Nat.div_eq_of_lt (by omega)
        rw [h2]
        have h3 : t.length + 1 + c - 1 = t.length + c := by omega
        rw [h3, Nat.add_div_right _ hc]
        have h4 : t.length / c = 0 := Nat.div_eq_of_lt (by omega)
        omega
      · have h5 : t.length + 1 + c - 1 = (t.length + 1 - c + c - 1) + c := by
          omega
        rw [h5, Nat.add_div_right _ hc]

theorem chunksOf_length {α : Type} (c : Nat) (hc : 0 < c) (l : List α) :
    (chunksOf c l).length = (l.length + c - 1) / c :=
  chunksOf_length_aux c hc l.length l le_rfl

theorem chunksOf_flatten_aux {α : Type} (c : Nat) (hc : 0 < c) :
    ∀ (n : Nat) (l : List α), l.length ≤ n → (chunksOf c l).flatten = l := by
  intro n
  induction n with
  | zero =>
    intro l hl
    have h0 : l = [] := List.eq_nil_of_length_eq_zero (Nat.le_zero.mp hl)
    subst h0
    rw [chunksOf_nil]
    rfl
  | succ m ih =>
    intro l hl
    cases l with
    | nil =>
      rw [chunksOf_nil]
      rfl
    | cons a t =>
      rw [chunksOf_cons c hc a t]
      have hlen : ((a :: t).drop c).length ≤ m := by
        have hl' : t.length + 1 ≤ m + 1 := by simpa using hl
        have hd : ((a :: t).drop c).length = t.length + 1 - c := by simp
        omega
      rw [List.flatten_cons, ih ((a :: t).drop c) hlen, List.take_append_drop]

theorem chunksOf_flatten {α : Type} (c : Nat) (hc : 0 < c) (l : List α) :
    (chunksOf c l).flatten = l :=
  chunksOf_flatten_aux c hc l.length l le_rfl

theorem chunksOf_groups_aux {α : Type} (c : Nat) (hc : 0 < c) :
    ∀ (n : Nat) (l : List α), l.length ≤ n →
      ∀ g ∈ chunksOf c l, g ≠ [] ∧ ∀ x ∈ g, x ∈ l := by
  intro n
  induction n with
  | zero =>
    intro l hl g hg
    have h0 : l = [] := List.eq_nil_of_length_eq_zero (Nat.le_zero.mp hl)
    subst h0
    rw [chunksOf_nil] at hg
    simp at hg
  | succ m ih =>
    intro l hl g hg
    cases l with
    | nil =>
      rw [chunksOf_nil] at hg
      simp at hg
    | cons a t =>
      rw [chunksOf_cons c hc a t] at hg
      rcases List.mem_cons.mp hg with hhead | htail
      · subst hhead
        constructor
        · obtain ⟨c2, hc2⟩ : ∃ c2, c = c2 + 1 := ⟨c - 1, by omega⟩
          subst hc2
          simp
        · intro x hx
          exact List.take_subset c (a :: t) hx
      · have hlen : ((a :: t).drop c).length ≤ m := by
          have hl' : t.length + 1 ≤ m + 1 := by simpa using hl
          have hd : ((a :: t).drop c).length = t.length + 1 - c := by simp
          omega
        rcases ih ((a :: t).drop c) hlen g htail with ⟨hne, hmem⟩
        exact ⟨hne, fun x hx => List.drop_subset c (a :: t) (hmem x hx)⟩

theorem pyStrip_subset (s : Str) : ∀ x ∈ pyStrip s, x ∈ s := by
  intro x hx
  rw [pyStrip, List.mem_reverse] at hx
  have h1 : x ∈ (s.dropWhile isPyWhitespace).reverse :=
    (List.dropWhile_sublist _).subset hx
  rw [List.mem_reverse] at h1
  exact (List.dropWhile_sublist _).subset h1

theorem nonBlankLines_eq_fileNonBlankLines (raw : List Str)
    (hws : ∀ r ∈ raw, pyStrip r = r ∨ pyStrip r = []) :
    nonBlankLines raw = fileNonBlankLines raw := by
  rw [nonBlankLines, List.filter_map]
  have h1 : raw.filter ((fun l => !l.isEmpty) ∘ pyStrip) = fileNonBlankLines raw := rfl
  rw [h1]
  have h2 : ∀ x ∈ fileNonBlankLines raw, pyStrip x = x := by
    intro x hx
    rcases List.mem_filter.mp hx with ⟨hx1, hx2⟩
    rcases hws x hx1 with h | h
    · exact h
    · rw [h] at hx2
      simp at hx2
  calc (fileNonBlankLines raw).map pyStrip
      = (fileNonBlankLines raw).map (fun x => x) := List.map_congr_left h2
    _ = fileNonBlankLines raw := List.map_id' (fileNonBlankLines raw)

/-- Claim C2: for a positive chunk size `c`, an artifact file whose lines
contain no embedded newline and are already stripped (blank lines may be
whitespace), the chunking engine produces exactly `⌈N / c⌉` units for `N`
non-blank lines (here `(N + c - 1) / c` in truncating division), and
splitting each unit back into its lines and concatenating reproduces the
file's non-blank line sequence exactly. -/
theorem chunking_partitions_nonblank_lines (raw : List Str) (c : Nat)
    (hc : 0 < c) (hnl : ∀ r ∈ raw, '\n' ∉ r)
    (hws : ∀ r ∈ raw, pyStrip r = r ∨ pyStrip r = []) :
    (load_and_chunk_files raw c).length =
      ((fileNonBlankLines raw).length + c - 1) / c ∧
    ((load_and_chunk_files raw c).map (fun u => u.splitOn '\n')).flatten =
      fileNonBlankLines raw := by
  have hEq := nonBlankLines_eq_fileNonBlankLines raw hws
  have hlines : ∀ x ∈ nonBlankLines raw, '\n' ∉ x := by
    intro x hx hmem
    rw [nonBlankLines] at hx
    rcases List.mem_filter.mp hx with ⟨hx1, _⟩
    rcases List.mem_map.mp hx1 with ⟨r, hr, rfl⟩
    exact hnl r hr (pyStrip_subset r '\n' hmem)
  constructor
  · rw [load_and_chunk_files, List.length_map, chunksOf_length c hc, hEq]
  · rw [load_and_chunk_files, List.map_map]
    have hmap : ∀ g ∈ chunksOf c (nonBlankLines raw),
        ((fun u => List.splitOn '\n' u) ∘ (fun g2 => List.intercalate ['\n'] g2)) g
          = g := by
      intro g hg
      rcases chunksOf_groups_aux c hc (nonBlankLines raw).length
          (nonBlankLines raw) le_rfl g hg with ⟨hne, hmemg⟩
      show (List.intercalate ['\n'] g).splitOn '\n' = g
      exact List.splitOn_intercalate g '\n'
        (fun l hl h2 => hlines l (hmemg l hl) h2) hne
    calc ((chunksOf c (nonBlankLines raw)).map
            ((fun u => List.splitOn '\n' u) ∘ (fun g2 => List.intercalate ['\n'] g2))).flatten
        = ((chunksOf c (nonBlankLines raw)).map (fun g => g)).flatten := by
          rw [List.map_congr_left hmap]
      _ = (chunksOf c (nonBlankLines raw)).flatten := by
          rw [List.map_id' (chunksOf c (nonBlankLines raw))]
      _ = nonBlankLines raw := chunksOf_flatten c hc (nonBlankLines raw)
      _ = fileNonBlankLines raw := hEq

/-- Witness for C2: five raw lines, one of them blank, chunk size 2: the
engine yields `⌈4 / 2⌉ = 2` units whose concatenated lines are the four
non-blank lines. -/
theorem chunking_partitions_nonblank_lines_witness :
    (load_and_chunk_files rawLinesDemo 2).length =
      ((fileNonBlankLines rawLinesDemo).length + 2 - 1) / 2 ∧
    ((load_and_chunk_files rawLinesDemo 2).map (fun u => u.splitOn '\n')).flatten =
      fileNonBlankLines rawLinesDemo :=
  chunking_partitions_nonblank_lines rawLinesDemo 2 (by omega)
    (by decide) (by decide)

/-!
Evidence correlator (claim C1).
-/

theorem char_toNat_ofNat (n : Nat) (h : n.isValidChar) :
    (Char.ofNat n).toNat = n := by
  simp [Char.ofNat, h, Char.ofNatAux, Char.toNat, UInt32.toNat]

theorem char_toLower_idem (c : Char) :
    (Char.toLower c).toLower = Char.toLower c := by
  by_cases h : 65 ≤ c.toNat ∧ c.toNat ≤ 90
  · have hv : (c.toNat + 32).isValidChar := by
      constructor
      omega
    have h2 : (Char.ofNat (c.toNat + 32)).toNat = c.toNat + 32 :=
      char_toNat_ofNat _ hv
    have hlow : Char.toLower c = Char.ofNat (c.toNat + 32) := by
      simp [Char.toLower, h]
    rw [hlow]
    have hcond : ¬(65 ≤ (Char.ofNat (c.toNat + 32)).toNat ∧
        (Char.ofNat (c.toNat + 32)).toNat ≤ 90) := by
      rw [h2]
      omega
    simp [Char.toLower, hcond]
  · have hlow : Char.toLower c = c := by
      simp only [Char.toLower]
      rw [if_neg h]
    rw [hlow, hlow]

theorem lowerStr_idem (s : Str) : lowerStr (lowerStr s) = lowerStr s := by
  rw [lowerStr, lowerStr, List.map_map]
  exact List.map_congr_left (fun c _ => char_toLower_idem c)

theorem mem_load_mobsf_lowered (api : List (Str × List Str)) (cat path : Str)
    (h : (cat, path) ∈ load_mobsf_api_sections api) :
    lowerStr cat = cat ∧ lowerStr path = path := by
  rw [load_mobsf_api_sections] at h
  rcases List.mem_flatMap.mp h with ⟨cd, hcd, hmem⟩
  rcases List.mem_map.mp hmem with ⟨fp, hfp, heq⟩
  rcases (Prod.mk.injEq _ _ _ _).mp heq with ⟨h1, h2⟩
  constructor
  · rw [← h1, lowerStr_idem]
  · rw [← h2, lowerStr_idem]

theorem count_fuzzy_filterMap (susi : List (Str × SusiKind)) (k : SusiKind)
    (c p c2 p2 : Str) :
    List.count (k, c, p)
        (susi.filterMap (fun mt =>
          if pyInStr mt.1 c2 || pyInStr mt.1 p2 then some (mt.2, c2, p2)
          else none))
      = if c2 = c ∧ p2 = p then
          susi.countP (fun mt => mt.2 == k && (pyInStr mt.1 c || pyInStr mt.1 p))
        else 0 := by
  rw [List.count_filterMap]
  by_cases hif : c2 = c ∧ p2 = p
  · obtain ⟨rfl, rfl⟩ := hif
    rw [if_pos (And.intro rfl rfl)]
    apply List.countP_congr
    intro mt hmt
    cases htest : (pyInStr mt.1 c2 || pyInStr mt.1 p2) with
    | true => simp [htest, beq_iff_eq, Prod.mk.injEq]
    | false => simp [htest]
  · rw [if_neg hif]
    apply List.countP_eq_zero.mpr
    intro mt hmt
    cases htest : (pyInStr mt.1 c2 || pyInStr mt.1 p2) with
    | true =>
      simp only [htest, if_true, beq_iff_eq, Option.some.injEq, Prod.mk.injEq]
      intro hcontra
      exact hif ⟨hcontra.2.1, hcontra.2.2⟩
    | false => simp [htest]

theorem count_fuzzy (entries : List (Str × Str)) (susi : List (Str × SusiKind))
    (k : SusiKind) (c p : Str) :
    List.count (k, c, p) (fuzzy_match entries susi)
      = List.count (c, p) entries
        * susi.countP (fun mt => mt.2 == k && (pyInStr mt.1 c || pyInStr mt.1 p)) := by
  induction entries with
  | nil => simp [fuzzy_match]
  | cons cp rest ih =>
    have hstep : fuzzy_match (cp :: rest) susi =
        susi.filterMap (fun mt =>
          if pyInStr mt.1 cp.1 || pyInStr mt.1 cp.2 then some (mt.2, cp.1, cp.2)
          else none) ++ fuzzy_match rest susi := by
      rw [fuzzy_match, List.flatMap_cons]
      rfl
    rw [hstep, List.count_append, ih, List.count_cons,
      count_fuzzy_filterMap susi k c p cp.1 cp.2]
    by_cases hcp : cp = (c, p)
    · subst hcp
      rw [if_pos (And.intro rfl rfl)]
      simp only [beq_self_eq_true, if_true]
      ring
    · have hif : ¬(cp.1 = c ∧ cp.2 = p) := by
        intro hcontra
        apply hcp
        rcases hcontra with ⟨h1, h2⟩
        calc cp = (cp.1, cp.2) := rfl
          _ = (c, p) := by rw [h1, h2]
      rw [if_neg hif]
      have hb : (cp == (c, p)) = false := by
        rw [beq_eq_false_iff_ne]
        exact hcp
      rw [hb]
      simp

/-- Claim C1: for every scan-report behavior entry and catalog, the number
of `(kind, category, path)` matches produced by `fuzzy_match` equals the
number of occurrences of `(category, path)` among the loaded behavior
entries times the number of catalog items of that kind whose method name
is a case-insensitive substring of the category or of the file path.  In
particular a match exists iff the substring test holds for some catalog
method of that kind, no match arises otherwise, and each matching catalog
method contributes its own match (no deduplication). -/
theorem match_count_eq_ci_substring_matches
    (android_api : List (Str × List Str)) (susi : List (Str × SusiKind))
    (hS : ∀ mt ∈ susi, lowerStr mt.1 = mt.1)
    (k : SusiKind) (cat path : Str) :
    List.count (k, cat, path)
        (fuzzy_match (load_mobsf_api_sections android_api) susi)
      = List.count (cat, path) (load_mobsf_api_sections android_api)
        * susi.countP (fun mt =>
            mt.2 == k && (ciSubstring mt.1 cat || ciSubstring mt.1 path)) := by
  rw [count_fuzzy]
  by_cases hmem : (cat, path) ∈ load_mobsf_api_sections android_api
  · rcases mem_load_mobsf_lowered android_api cat path hmem with ⟨hc, hp⟩
    congr 1
    apply List.countP_congr
    intro mt hmt
    simp only [ciSubstring, hS mt hmt, hc, hp]
  · have hz : List.count (cat, path) (load_mobsf_api_sections android_api) = 0 :=
      List.count_eq_zero.mpr hmem
    rw [hz]
    simp

/-- Witness for C1: a one-entry catalog with sink method `loc` and one
behavior entry (category `Geolocation`, file `a/B.java`); the lemma gives
the match count for the lower-cased pair. -/
theorem match_count_eq_ci_substring_matches_witness :
    List.count (SusiKind.sink, "geolocation".toList, "a/b.java".toList)
        (fuzzy_match (load_mobsf_api_sections apiDemo) susiDemo)
      = List.count ("geolocation".toList, "a/b.java".toList)
          (load_mobsf_api_sections apiDemo)
        * susiDemo.countP (fun mt =>
            mt.2 == SusiKind.sink &&
            (ciSubstring mt.1 ("geolocation".toList) ||
             ciSubstring mt.1 ("a/b.java".toList))) :=
  match_count_eq_ci_substring_matches apiDemo susiDemo (by decide)
    SusiKind.sink ("geolocation".toList) ("a/b.java".toList)

/-!
Catalog loader (claims C6 and C7).
-/

theorem dictLookup_cons (kv : Str × α) (rest : List (Str × α)) (k : Str) :
    dictLookup (kv :: rest) k =
      if kv.1 == k then some kv.2 else dictLookup rest k := by
  simp only [dictLookup, List.find?_cons]
  cases hk : kv.1 == k
  · simp [hk]
  · simp [hk]

theorem mem_dictInsert (d : List (Str × α)) (k : Str) (v : α) (kv : Str × α)
    (h : kv ∈ dictInsert d k v) : kv ∈ d ∨ kv = (k, v) := by
  rw [dictInsert] at h
  by_cases hany : (d.any (fun kv2 => kv2.1 == k)) = true
  · rw [if_pos hany] at h
    rcases List.mem_map.mp h with ⟨kv2, hkv2, heq⟩
    by_cases hk : (kv2.1 == k) = true
    · rw [if_pos hk] at heq
      right
      exact heq.symm
    · rw [if_neg hk] at heq
      left
      rw [← heq]
      exact hkv2
  · rw [if_neg hany] at h
    rcases List.mem_append.mp h with h1 | h1
    · left
      exact h1
    · right
      exact List.mem_singleton.mp h1

theorem keys_dictInsert (d : List (Str × α)) (k : Str) (v : α) :
    (dictInsert d k v).map Prod.fst =
      if dictHasKey d k then d.map Prod.fst else d.map Prod.fst ++ [k] := by
  rw [dictInsert, dictHasKey]
  by_cases hany : (d.any (fun kv => kv.1 == k)) = true
  · rw [if_pos hany, if_pos hany, List.map_map]
    apply List.map_congr_left
    intro kv _
    by_cases hk : (kv.1 == k) = true
    · show (if kv.1 == k then (k, v) else kv).1 = kv.1
      rw [if_pos hk]
      exact (eq_of_beq hk).symm
    · show (if kv.1 == k then (k, v) else kv).1 = kv.1
      rw [if_neg hk]
  · rw [if_neg hany, if_neg hany, List.map_append]
    rfl

theorem keys_nodup_dictInsert (d : List (Str × α)) (k : Str) (v : α)
    (h : (d.map Prod.fst).Nodup) :
    ((dictInsert d k v).map Prod.fst).Nodup := by
  rw [keys_dictInsert]
  by_cases hk : dictHasKey d k = true
  · rw [if_pos hk]
    exact h
  · rw [if_neg hk]
    have hnot : k ∉ d.map Prod.fst := by
      intro hmem
      rcases List.mem_map.mp hmem with ⟨kv, hkv, hfst⟩
      apply hk
      rw [dictHasKey]
      exact List.any_eq_true.mpr ⟨kv, hkv, by rw [hfst]; exact beq_self_eq_true k⟩
    simp [List.nodup_append, h, hnot]

theorem keys_nodup_dictUpdate (e d : List (Str × α))
    (h : (d.map Prod.fst).Nodup) :
    ((dictUpdate d e).map Prod.fst).Nodup := by
  induction e generalizing d with
  | nil => exact h
  | cons kv rest ih =>
    show ((dictUpdate (dictInsert d kv.1 kv.2) rest).map Prod.fst).Nodup
    exact ih (dictInsert d kv.1 kv.2) (keys_nodup_dictInsert d kv.1 kv.2 h)

theorem dictLookup_dictInsert_self (d : List (Str × α)) (k : Str) (v : α) :
    dictLookup (dictInsert d k v) k = some v := by
  induction d with
  | nil => simp [dictInsert, dictLookup]
  | cons kv rest ih =>
    rw [dictInsert]
    by_cases hk : (kv.1 == k) = true
    · have hany : ((kv :: rest).any (fun kv2 => kv2.1 == k)) = true := by
        simp [List.any_cons, hk]
      rw [if_pos hany, List.map_cons, if_pos hk, dictLookup_cons]
      simp
    · by_cases hany : (rest.any (fun kv2 => kv2.1 == k)) = true
      · have hany2 : ((kv :: rest).any (fun kv2 => kv2.1 == k)) = true := by
          simp [List.any_cons, hany]
        rw [if_pos hany2, List.map_cons, if_neg hk, dictLookup_cons, if_neg hk]
        rw [dictInsert, if_pos hany] at ih
        exact ih
      · have hk' : (kv.1 == k) = false := by
          simp only [Bool.not_eq_true] at hk
          exact hk
        have hany' : (rest.any (fun kv2 => kv2.1 == k)) = false := by
          simp only [Bool.not_eq_true] at hany
          exact hany
        have hany2 : ((kv :: rest).any (fun kv2 => kv2.1 == k)) = false := by
          rw [List.any_cons, hk', hany']
          rfl
        rw [if_neg (by rw [hany2]; exact Bool.false_ne_true), List.cons_append,
          dictLookup_cons, if_neg hk]
        rw [dictInsert, if_neg hany] at ih
        exact ih

theorem dictLookup_map_replace (d : List (Str × α)) (k k2 : Str) (v : α)
    (h : k2 ≠ k) :
    dictLookup (d.map (fun kv => if kv.1 == k then (k, v) else kv)) k2 =
      dictLookup d k2 := by
  induction d with
  | nil => rfl
  | cons kv rest ih =>
    rw [List.map_cons, dictLookup_cons, dictLookup_cons]
    by_cases hk : (kv.1 == k) = true
    · rw [if_pos hk]
      have hb : ((k, v).1 == k2) = false := by
        rw [beq_eq_false_iff_ne]
        exact fun hc => h hc.symm
      have hb2 : (kv.1 == k2) = false := by
        rw [beq_eq_false_iff_ne]
        rw [eq_of_beq hk]
        exact fun hc => h hc.symm
      rw [if_neg (by rw [hb]; exact Bool.false_ne_true),
        if_neg (by rw [hb2]; exact Bool.false_ne_true)]
      exact ih
    · rw [if_neg hk]
      by_cases hk2 : (kv.1 == k2) = true
      · rw [if_pos hk2, if_pos hk2]
      · rw [if_neg hk2, if_neg hk2]
        exact ih

theorem dictLookup_dictInsert_other (d : List (Str × α)) (k k2 : Str) (v : α)
    (h : k2 ≠ k) : dictLookup (dictInsert d k v) k2 = dictLookup d k2 := by
  rw [dictInsert]
  by_cases hany : (d.any (fun kv2 => kv2.1 == k)) = true
  · rw [if_pos hany]
    exact dictLookup_map_replace d k k2 v h
  · rw [if_neg hany, dictLookup, List.find?_append]
    have hsing : ([((k, v) : Str × α)].find? (fun kv => kv.1 == k2)) = none := by
      rw [List.find?_eq_none]
      intro x hx
      rw [List.mem_singleton.mp hx]
      show ¬((k, v).1 == k2) = true
      rw [beq_eq_false_iff_ne.mpr (fun hc => h hc.symm)]
      exact Bool.false_ne_true
    rw [hsing, Option.or_none]
    rfl

theorem dictHasKey_iff_mem_keys (d : List (Str × α)) (k : Str) :
    dictHasKey d k = true ↔ k ∈ d.map Prod.fst := by
  rw [dictHasKey, List.any_eq_true]
  constructor
  · rintro ⟨kv, hkv, hb⟩
    exact List.mem_map.mpr ⟨kv, hkv, eq_of_beq hb⟩
  · intro hmem
    rcases List.mem_map.mp hmem with ⟨kv, hkv, hfst⟩
    exact ⟨kv, hkv, by rw [hfst]; exact beq_self_eq_true k⟩

theorem dictLookup_dictUpdate_notin (e : List (Str × α)) (d : List (Str × α))
    (k : Str) (hk : dictHasKey e k = false) :
    dictLookup (dictUpdate d e) k = dictLookup d k := by
  induction e generalizing d with
  | nil => rfl
  | cons kv rest ih =>
    rw [dictHasKey, List.any_cons, Bool.or_eq_false_iff] at hk
    rcases hk with ⟨hkv, hrest⟩
    have hne : k ≠ kv.1 := by
      intro hc
      rw [hc, beq_self_eq_true] at hkv
      exact absurd hkv (by simp)
    show dictLookup (dictUpdate (dictInsert d kv.1 kv.2) rest) k = dictLookup d k
    rw [ih (dictInsert d kv.1 kv.2) hrest]
    exact dictLookup_dictInsert_other d kv.1 k kv.2 hne

theorem dictLookup_dictUpdate_of_hasKey (e : List (Str × α)) (d : List (Str × α))
    (k : Str) (hnodup : (e.map Prod.fst).Nodup) (hk : dictHasKey e k = true) :
    dictLookup (dictUpdate d e) k = dictLookup e k := by
  induction e generalizing d with
  | nil =>
    rw [dictHasKey] at hk
    simp at hk
  | cons kv rest ih =>
    have hnodup2 : kv.1 ∉ rest.map Prod.fst ∧ (rest.map Prod.fst).Nodup := by
      rw [List.map_cons] at hnodup
      exact List.nodup_cons.mp hnodup
    show dictLookup (dictUpdate (dictInsert d kv.1 kv.2) rest) k =
      dictLookup (kv :: rest) k
    rw [dictLookup_cons]
    by_cases hkk : (kv.1 == k) = true
    · rw [if_pos hkk]
      have hke : k = kv.1 := (eq_of_beq hkk).symm
      have hnotin : dictHasKey rest k = false := by
        cases hcon : dictHasKey rest k with
        | false => rfl
        | true =>
          exfalso
          apply hnodup2.1
          rw [← hke]
          exact (dictHasKey_iff_mem_keys rest k).mp hcon
      rw [dictLookup_dictUpdate_notin rest (dictInsert d kv.1 kv.2) k hnotin,
        hke]
      exact dictLookup_dictInsert_self d kv.1 kv.2
    · rw [if_neg hkk]
      have hrest : dictHasKey rest k = true := by
        rw [dictHasKey, List.any_cons] at hk
        rcases Bool.or_eq_true_iff.mp hk with h1 | h1
        · exact absurd h1 hkk
        · exact h1
      exact ih (dictInsert d kv.1 kv.2) hnodup2.2 hrest

theorem parseSusiStep_keys_nodup (search : Str → Option Str) (typ : SusiKind)
    (acc : List (Str × SusiKind)) (l : Str)
    (h : (acc.map Prod.fst).Nodup) :
    ((parseSusiStep search typ acc l).map Prod.fst).Nodup := by
  rw [parseSusiStep]
  split
  · split
    · split
      · exact keys_nodup_dictInsert _ _ _ h
      · exact h
    · exact h
  · exact h

theorem parse_keys_nodup_aux (search : Str → Option Str) (typ : SusiKind)
    (lines : List Str) :
    ∀ acc : List (Str × SusiKind), (acc.map Prod.fst).Nodup →
      ((lines.foldl (parseSusiStep search typ) acc).map Prod.fst).Nodup := by
  induction lines with
  | nil => exact fun acc h => h
  | cons l rest ih =>
    intro acc h
    rw [List.foldl_cons]
    exact ih (parseSusiStep search typ acc l)
      (parseSusiStep_keys_nodup search typ acc l h)

theorem parse_keys_nodup (search : Str → Option Str) (lines : List Str)
    (typ : SusiKind) :
    ((parse_susi_methods_only search lines typ).map Prod.fst).Nodup :=
  parse_keys_nodup_aux search typ lines [] (by simp)

theorem mem_parse_foldl (search : Str → Option Str) (typ : SusiKind)
    (lines : List Str) :
    ∀ (acc : List (Str × SusiKind)) (kv : Str × SusiKind),
      kv ∈ lines.foldl (parseSusiStep search typ) acc →
      kv ∈ acc ∨ ∃ captured, kv = (lowerStr captured, typ) ∧
        2 < (lowerStr captured).length := by
  induction lines with
  | nil =>
    intro acc kv h
    left
    exact h
  | cons l rest ih =>
    intro acc kv h
    rw [List.foldl_cons] at h
    rcases ih (parseSusiStep search typ acc l) kv h with hacc | hnew
    · rw [parseSusiStep] at hacc
      split at hacc
      · split at hacc
        · rename_i captured heq
          split at hacc
          · rename_i hlen
            rcases mem_dictInsert acc (lowerStr captured) typ kv hacc with
              hold | hnew2
            · left
              exact hold
            · right
              exact ⟨captured, hnew2, hlen⟩
          · left
            exact hacc
        · left
          exact hacc
      · left
        exact hacc
    · right
      exact hnew

theorem parse_admitted_shape (search : Str → Option Str) (lines : List Str)
    (typ : SusiKind) :
    ∀ kv ∈ parse_susi_methods_only search lines typ,
      2 < kv.1.length ∧ lowerStr kv.1 = kv.1 ∧ kv.2 = typ := by
  intro kv h
  rcases mem_parse_foldl search typ lines [] kv h with hacc | ⟨c2, heq, hlen⟩
  · simp at hacc
  · subst heq
    exact ⟨hlen, lowerStr_idem c2, rfl⟩

theorem parse_skips_nonmatching (search : Str → Option Str) (typ : SusiKind)
    (pre post : List Str) (l : Str)
    (h : startsWithLt (pyStrip l) = false ∨
      (pyStrip l).any (fun c => c = '>') = false ∨
      search (pyStrip l) = none) :
    parse_susi_methods_only search (pre ++ l :: post) typ =
      parse_susi_methods_only search (pre ++ post) typ := by
  rw [parse_susi_methods_only, parse_susi_methods_only, List.foldl_append,
    List.foldl_append, List.foldl_cons]
  congr 1
  rcases h with h | h | h
  · simp [parseSusiStep, h]
  · simp [parseSusiStep, h]
  · simp [parseSusiStep, h]

/-- Claim C7: every method name admitted into the taxonomy dict is
lower-cased (a fixed point of the loader's lower-casing) and longer than 2
characters, and a line that fails the angle-bracket guard or does not
match the regex contributes nothing: deleting it from the file leaves the
parse unchanged (it is skipped without error). -/
theorem admitted_methods_lowercase_and_long (search : Str → Option Str)
    (fileLines : List Str) (typ : SusiKind) :
    (∀ kv ∈ parse_susi_methods_only search fileLines typ,
        2 < kv.1.length ∧ lowerStr kv.1 = kv.1) ∧
    (∀ (pre post : List Str) (l : Str),
        (startsWithLt (pyStrip l) = false ∨
         (pyStrip l).any (fun c => c = '>') = false ∨
         search (pyStrip l) = none) →
        parse_susi_methods_only search (pre ++ l :: post) typ =
          parse_susi_methods_only search (pre ++ post) typ) := by
  constructor
  · intro kv h
    rcases parse_admitted_shape search fileLines typ kv h with ⟨h1, h2, _⟩
    exact ⟨h1, h2⟩
  · intro pre post l h
    exact parse_skips_nonmatching search typ pre post l h

/-- Witness for C7: the demo sink taxonomy admits exactly the lower-cased
six-character name `getloc`, and a junk line is skipped. -/
theorem admitted_methods_lowercase_and_long_witness :
    (2 < ("getloc".toList : Str).length ∧
      lowerStr ("getloc".toList) = "getloc".toList) ∧
    parse_susi_methods_only searchDemo ([] ++ demoBadLine :: [demoSusiLine])
        SusiKind.sink =
      parse_susi_methods_only searchDemo ([] ++ [demoSusiLine]) SusiKind.sink :=
  ⟨(admitted_methods_lowercase_and_long searchDemo [demoSusiLine]
      SusiKind.sink).1 ("getloc".toList, SusiKind.sink) (by decide),
   (admitted_methods_lowercase_and_long searchDemo [demoSusiLine]
      SusiKind.sink).2 [] [demoSusiLine] demoBadLine (Or.inl (by decide))⟩

/-- Claim C6: the catalog built by `main` holds at most one kind per method
name (its keys are distinct), and every name present in both parsed
taxonomies is classified as a sink, because the sink dict is written
second and the later write overrides. -/
theorem catalog_unique_kind_and_sink_wins (search : Str → Option Str)
    (srcLines snkLines : List Str) :
    ((buildCatalog search srcLines snkLines).map Prod.fst).Nodup ∧
    ∀ m : Str,
      dictHasKey (parse_susi_methods_only search srcLines .source) m = true →
      dictHasKey (parse_susi_methods_only search snkLines .sink) m = true →
      dictLookup (buildCatalog search srcLines snkLines) m =
        some SusiKind.sink := by
  have hsnknodup :
      ((parse_susi_methods_only search snkLines .sink).map Prod.fst).Nodup :=
    parse_keys_nodup search snkLines .sink
  constructor
  · rw [buildCatalog]
    apply keys_nodup_dictUpdate
    apply keys_nodup_dictUpdate
    simp
  · intro m hsrc hsnk
    rw [buildCatalog,
      dictLookup_dictUpdate_of_hasKey _ _ m hsnknodup hsnk]
    cases hlook : dictLookup (parse_susi_methods_only search snkLines .sink) m with
    | none =>
      exfalso
      rw [dictLookup, Option.map_eq_none'] at hlook
      rw [List.find?_eq_none] at hlook
      rw [dictHasKey, List.any_eq_true] at hsnk
      rcases hsnk with ⟨kv, hkv, hb⟩
      exact hlook kv hkv hb
    | some v =>
      have hmem : ∃ kv, kv ∈ parse_susi_methods_only search snkLines .sink ∧
          kv.2 = v := by
        rw [dictLookup] at hlook
        rcases Option.map_eq_some'.mp hlook with ⟨kv, hfind, hsnd⟩
        exact ⟨kv, List.mem_of_find?_eq_some hfind, hsnd⟩
      rcases hmem with ⟨kv, hkv, hsnd⟩
      rcases parse_admitted_shape search snkLines .sink kv hkv with ⟨_, _, htyp⟩
      rw [← hsnd, htyp]

/-- Witness for C6: with the same taxonomy line in both files, the method
name `getloc` appears in both parsed dicts and the catalog classifies it
as a sink. -/
theorem catalog_unique_kind_and_sink_wins_witness :
    dictLookup (buildCatalog searchDemo [demoSusiLine] [demoSusiLine])
        ("getloc".toList) = some SusiKind.sink :=
  (catalog_unique_kind_and_sink_wins searchDemo [demoSusiLine]
    [demoSusiLine]).2 ("getloc".toList) (by decide) (by decide)

/-!
Report aggregator (claims C4, C5, C8 and C10).
-/

theorem pyGet_ok_eq_getOpt (r : Json) (k : Str) (v : Option Json)
    (h : pyGet r k = .ok v) : jsonGetOpt r k = v := by
  cases r <;> simp [pyGet, jsonGetOpt] at h ⊢
  exact h

theorem countRiskLevel_ok (level : Str) :
    ∀ (l : List Json) (n : Nat), countRiskLevel level l = .ok n →
      n = specRiskLevelCount level l := by
  intro l
  induction l with
  | nil =>
    intro n h
    simp only [countRiskLevel] at h
    injection h with h2
    rw [← h2]
    rfl
  | cons r rest ih =>
    intro n h
    rw [countRiskLevel] at h
    cases hget : pyGet r riskLevelKey with
    | error e =>
      rw [hget] at h
      simp at h
    | ok v =>
      rw [hget] at h
      cases hrec : countRiskLevel level rest with
      | error e =>
        rw [hrec] at h
        simp at h
      | ok m =>
        rw [hrec] at h
        injection h with h2
        rw [specRiskLevelCount, List.countP_cons, ← h2, ih m hrec]
        have hv : jsonGetOpt r riskLevelKey = v := pyGet_ok_eq_getOpt r _ v hget
        rw [specRiskLevelCount]
        simp only [hv]
        omega

theorem gfr_ok_parts (J : Str → Option Json) (llm : SummaryPrompt → Nat → Option Str)
    (results : List Str) (rep : FinalReport)
    (h : generate_final_report J llm results = .ok rep) :
    rep.statistics.total_chunks = results.length ∧
    rep.statistics.high_risk = specRiskLevelCount highStr (parsedResults J results) ∧
    rep.statistics.medium_risk = specRiskLevelCount mediumStr (parsedResults J results) ∧
    rep.detailed_findings = parsedResults J results := by
  simp only [generate_final_report] at h
  cases hhigh : countRiskLevel highStr (parsedResults J results) with
  | error e =>
    rw [hhigh] at h
    simp at h
  | ok high =>
    rw [hhigh] at h
    dsimp only at h
    cases hmed : countRiskLevel mediumStr (parsedResults J results) with
    | error e =>
      rw [hmed] at h
      simp at h
    | ok medium =>
      rw [hmed] at h
      dsimp only at h
      by_cases hemp : (parsedResults J results).isEmpty = true
      · rw [if_pos hemp] at h
        injection h with h2
        rw [← h2]
        exact ⟨rfl, countRiskLevel_ok highStr _ high hhigh,
          countRiskLevel_ok mediumStr _ medium hmed, rfl⟩
      · rw [if_neg hemp] at h
        cases htop : topIndicatorFirsts (parsedResults J results) with
        | error e =>
          rw [htop] at h
          simp at h
        | ok firsts =>
          rw [htop] at h
          dsimp only at h
          cases hjoin : joinWithNewlines firsts with
          | error e =>
            rw [hjoin] at h
            simp at h
          | ok top =>
            rw [hjoin] at h
            dsimp only at h
            injection h with h2
            rw [← h2]
            exact ⟨rfl, countRiskLevel_ok highStr _ high hhigh,
              countRiskLevel_ok mediumStr _ medium hmed, rfl⟩

/-- Claim C8: whenever `generate_final_report` returns a report, its
`high_risk` statistic equals the number of successfully parsed verdicts
whose `risk_level` field is `"high"`, and `medium_risk` likewise counts
`"medium"`. -/
theorem high_medium_count_parsed_verdicts (J : Str → Option Json)
    (llm : SummaryPrompt → Nat → Option Str) (results : List Str)
    (rep : FinalReport)
    (h : generate_final_report J llm results = .ok rep) :
    rep.statistics.high_risk =
      specRiskLevelCount highStr (parsedResults J results) ∧
    rep.statistics.medium_risk =
      specRiskLevelCount mediumStr (parsedResults J results) :=
  ⟨(gfr_ok_parts J llm results rep h).2.1,
   (gfr_ok_parts J llm results rep h).2.2.1⟩

/-- The concrete report produced from the single well-formed high-risk
verdict `rawHigh` with a summary model whose calls all fail. -/
def repHigh : FinalReport :=
  ⟨⟨1, 1, 0⟩, [objHigh], none⟩

/-- Witness for C8: one well-formed high-risk verdict gives
`high_risk = 1` and `medium_risk = 0`. -/
theorem high_medium_count_parsed_verdicts_witness :
    repHigh.statistics.high_risk =
      specRiskLevelCount highStr (parsedResults jsonLoadsHigh [rawHigh]) ∧
    repHigh.statistics.medium_risk =
      specRiskLevelCount mediumStr (parsedResults jsonLoadsHigh [rawHigh]) :=
  high_medium_count_parsed_verdicts jsonLoadsHigh llmNone [rawHigh] repHigh rfl

/-- Counterexample to claim C4 as stated: the two raw-response lists
`[junkRaw]` (one unparseable response) and `[]` have the same (empty) set
of successfully parsed verdicts, yet their statistics blocks differ —
`total_chunks` is 1 versus 0 — so the statistics block does not depend
only on the parsed verdicts: an unparseable raw response contributes to
`total_chunks`. -/
theorem statistics_depend_on_raw_counterexample :
    parsedResults jsonLoadsNone [junkRaw] = parsedResults jsonLoadsNone [] ∧
    generate_final_report jsonLoadsNone llmNone [junkRaw] =
      .ok ⟨⟨1, 0, 0⟩, [], none⟩ ∧
    generate_final_report jsonLoadsNone llmNone [] =
      .ok ⟨⟨0, 0, 0⟩, [], none⟩ ∧
    (⟨1, 0, 0⟩ : Stats) ≠ (⟨0, 0, 0⟩ : Stats) :=
  ⟨rfl, rfl, rfl, by decide⟩

/-- Claim C4 as amended: `high_risk` and `medium_risk` are computed over
the successfully parsed verdicts only (they are functions of the parsed
list), but `total_chunks` equals the length of the raw responses list, so
a raw response that fails to parse still contributes to `total_chunks`. -/
theorem statistics_fields_amended (J : Str → Option Json)
    (llm : SummaryPrompt → Nat → Option Str) (results : List Str)
    (rep : FinalReport)
    (h : generate_final_report J llm results = .ok rep) :
    rep.statistics.total_chunks = results.length ∧
    rep.statistics.high_risk =
      specRiskLevelCount highStr (parsedResults J results) ∧
    rep.statistics.medium_risk =
      specRiskLevelCount mediumStr (parsedResults J results) :=
  ⟨(gfr_ok_parts J llm results rep h).1,
   (gfr_ok_parts J llm results rep h).2.1,
   (gfr_ok_parts J llm results rep h).2.2.1⟩

/-- Witness for the amended C4: the single-verdict run has
`total_chunks = 1` and counts computed over its one parsed verdict. -/
theorem statistics_fields_amended_witness :
    repHigh.statistics.total_chunks = [rawHigh].length ∧
    repHigh.statistics.high_risk =
      specRiskLevelCount highStr (parsedResults jsonLoadsHigh [rawHigh]) ∧
    repHigh.statistics.medium_risk =
      specRiskLevelCount mediumStr (parsedResults jsonLoadsHigh [rawHigh]) :=
  statistics_fields_amended jsonLoadsHigh llmNone [rawHigh] repHigh rfl

/-- Claim C5: when zero verdicts parse successfully, the aggregator skips
the executive-summary model call entirely (the result does not depend on
the summary model at all), leaves `executive_summary` null, and still
returns the report with empty findings rather than an error. -/
theorem zero_verdicts_skip_summary (J : Str → Option Json)
    (llm : SummaryPrompt → Nat → Option Str) (results : List Str)
    (h : parsedResults J results = []) :
    generate_final_report J llm results =
      .ok ⟨⟨results.length, 0, 0⟩, [], none⟩ := by
  simp only [generate_final_report, h, countRiskLevel, List.isEmpty_nil,
    if_true]

/-- Witness for C5: a run whose only raw response fails to parse yields
the report with `total_chunks = 1`, zero counts, no findings and a null
summary. -/
theorem zero_verdicts_skip_summary_witness :
    generate_final_report jsonLoadsNone llmNone [junkRaw] =
      .ok ⟨⟨[junkRaw].length, 0, 0⟩, [], none⟩ :=
  zero_verdicts_skip_summary jsonLoadsNone llmNone [junkRaw] rfl

/-- Claim C10: a raw response that parses as a valid JSON object with
`risk_level: "high"` but no `key_indicators` key makes the top-indicators
digest raise `KeyError`, and `generate_final_report` propagates the
exception instead of dropping that verdict's contribution. -/
theorem digest_raises_instead_of_dropping :
    topIndicatorFirsts [objMissingKi] = .error .keyError ∧
    generate_final_report jsonLoadsMissingKi llmNone [rawMissingKi] =
      .error .keyError :=
  ⟨rfl, rfl⟩

end APKScan
